import Mathlib

/-!
Shallow embedding of the metadata conformance-validation harness from
packages/types/src/metadata/util/testUtil.ts.

The binary codec, the type registry, the metadata object and its
projections are external collaborators of the harness; they are modelled
as abstract operations bundled in a Registry structure, with every
fallible call returning Except.  The harness logic itself -- check
registration, golden-fixture reconciliation with CI-sensitive
self-healing, the cross-version conversion gate, and the per-item
default-value classification with its substring allow-list -- is
translated directly from the source.

Byte sequences are lists of naturals; hex strings produced by u8aToHex
are lists of characters; JSON trees are a first-order inductive.
-/

namespace MetadataTestUtil

/-- Byte sequences (Uint8Array values in the source). -/
abbrev Bytes := List Nat

/-- Lower-case hex digit character for a value below 16. -/
def hexDigit (n : Nat) : Char :=
  if n < 10 then Char.ofNat (48 + n) else Char.ofNat (87 + n)

/-- The two hex characters of one byte. -/
def byteToHex (n : Nat) : List Char :=
  [hexDigit (n / 16), hexDigit (n % 16)]

/-- Hex characters of a byte sequence, without the 0x marker. -/
def hexBody (bs : Bytes) : List Char :=
  (bs.map byteToHex).flatten

/-- Model of u8aToHex from the util library: 0x followed by two hex
characters per byte. -/
def u8aToHex (bs : Bytes) : List Char :=
  '0' :: 'x' :: hexBody bs

/-- JSON-like structural trees, the output of the toJSON projections. -/
inductive Json where
  | null : Json
  | boolean (b : Bool) : Json
  | num (n : Int) : Json
  | str (s : String) : Json
  | arr (elems : List Json) : Json
  | obj (fields : List (String × Json)) : Json

mutual

/-- Decidable equality on trees, by structural recursion so that concrete
comparisons reduce. -/
def Json.decEq : (a b : Json) → Decidable (a = b)
  | .null, .null => isTrue rfl
  | .boolean a, .boolean b =>
    match Bool.decEq a b with
    | isTrue h => isTrue (by rw [h])
    | isFalse h => isFalse (fun hh => h (Json.boolean.inj hh))
  | .num a, .num b =>
    match Int.decEq a b with
    | isTrue h => isTrue (by rw [h])
    | isFalse h => isFalse (fun hh => h (Json.num.inj hh))
  | .str a, .str b =>
    match String.decEq a b with
    | isTrue h => isTrue (by rw [h])
    | isFalse h => isFalse (fun hh => h (Json.str.inj hh))
  | .arr a, .arr b =>
    match Json.decEqList a b with
    | isTrue h => isTrue (by rw [h])
    | isFalse h => isFalse (fun hh => h (Json.arr.inj hh))
  | .obj a, .obj b =>
    match Json.decEqFields a b with
    | isTrue h => isTrue (by rw [h])
    | isFalse h => isFalse (fun hh => h (Json.obj.inj hh))
  | .null, .boolean _ => isFalse (by intro h; exact Json.noConfusion h)
  | .null, .num _ => isFalse (by intro h; exact Json.noConfusion h)
  | .null, .str _ => isFalse (by intro h; exact Json.noConfusion h)
  | .null, .arr _ => isFalse (by intro h; exact Json.noConfusion h)
  | .null, .obj _ => isFalse (by intro h; exact Json.noConfusion h)
  | .boolean _, .null => isFalse (by intro h; exact Json.noConfusion h)
  | .boolean _, .num _ => isFalse (by intro h; exact Json.noConfusion h)
  | .boolean _, .str _ => isFalse (by intro h; exact Json.noConfusion h)
  | .boolean _, .arr _ => isFalse (by intro h; exact Json.noConfusion h)
  | .boolean _, .obj _ => isFalse (by intro h; exact Json.noConfusion h)
  | .num _, .null => isFalse (by intro h; exact Json.noConfusion h)
  | .num _, .boolean _ => isFalse (by intro h; exact Json.noConfusion h)
  | .num _, .str _ => isFalse (by intro h; exact Json.noConfusion h)
  | .num _, .arr _ => isFalse (by intro h; exact Json.noConfusion h)
  | .num _, .obj _ => isFalse (by intro h; exact Json.noConfusion h)
  | .str _, .null => isFalse (by intro h; exact Json.noConfusion h)
  | .str _, .boolean _ => isFalse (by intro h; exact Json.noConfusion h)
  | .str _, .num _ => isFalse (by intro h; exact Json.noConfusion h)
  | .str _, .arr _ => isFalse (by intro h; exact Json.noConfusion h)
  | .str _, .obj _ => isFalse (by intro h; exact Json.noConfusion h)
  | .arr _, .null => isFalse (by intro h; exact Json.noConfusion h)
  | .arr _, .boolean _ => isFalse (by intro h; exact Json.noConfusion h)
  | .arr _, .num _ => isFalse (by intro h; exact Json.noConfusion h)
  | .arr _, .str _ => isFalse (by intro h; exact Json.noConfusion h)
  | .arr _, .obj _ => isFalse (by intro h; exact Json.noConfusion h)
  | .obj _, .null => isFalse (by intro h; exact Json.noConfusion h)
  | .obj _, .boolean _ => isFalse (by intro h; exact Json.noConfusion h)
  | .obj _, .num _ => isFalse (by intro h; exact Json.noConfusion h)
  | .obj _, .str _ => isFalse (by intro h; exact Json.noConfusion h)
  | .obj _, .arr _ => isFalse (by intro h; exact Json.noConfusion h)
termination_by structural a => a

/-- Decidable equality on element lists. -/
def Json.decEqList : (as bs : List Json) → Decidable (as = bs)
  | [], [] => isTrue rfl
  | [], _ :: _ => isFalse (by intro h; exact List.noConfusion h)
  | _ :: _, [] => isFalse (by intro h; exact List.noConfusion h)
  | a :: as, b :: bs =>
    match Json.decEq a b with
    | isTrue h1 =>
      match Json.decEqList as bs with
      | isTrue h2 => isTrue (by rw [h1, h2])
      | isFalse h2 => isFalse (fun hh => h2 (List.cons.inj hh).2)
    | isFalse h1 => isFalse (fun hh => h1 (List.cons.inj hh).1)
termination_by structural as => as

/-- Decidable equality on field lists. -/
def Json.decEqFields : (as bs : List (String × Json)) → Decidable (as = bs)
  | [], [] => isTrue rfl
  | [], _ :: _ => isFalse (by intro h; exact List.noConfusion h)
  | _ :: _, [] => isFalse (by intro h; exact List.noConfusion h)
  | (k, v) :: as, (k', v') :: bs =>
    match String.decEq k k' with
    | isTrue h0 =>
      match Json.decEq v v' with
      | isTrue h1 =>
        match Json.decEqFields as bs with
        | isTrue h2 => isTrue (by rw [h0, h1, h2])
        | isFalse h2 => isFalse (fun hh => h2 (List.cons.inj hh).2)
      | isFalse h1 => isFalse (fun hh => h1 (congrArg Prod.snd (List.cons.inj hh).1))
    | isFalse h0 => isFalse (fun hh => h0 (congrArg Prod.fst (List.cons.inj hh).1))
termination_by structural as => as

end

instance : DecidableEq Json := Json.decEq

/-- First value stored under a key in a field list (property access on a
JS object, whose keys are unique). -/
def findKey : List (String × Json) → String → Option Json
  | [], _ => none
  | (k, v) :: fs, k' => if k = k' then some v else findKey fs k'

/-- Property read of one key; none when the tree is not an object or
lacks the key. -/
def Json.get : Json → String → Option Json
  | .obj fs, k => findKey fs k
  | _, _ => none

/-- Value reached by a path of keys from the root. -/
def getPath : Json → List String → Option Json
  | j, [] => some j
  | j, k :: ks =>
    match j.get k with
    | some c => getPath c ks
    | none => none

/-- JS delete of one key: removes every binding of the key from an
object (a JS object has at most one), identity on other trees. -/
def delKey : Json → String → Json
  | .obj fs, k => .obj (fs.filter (fun kv => decide (kv.1 ≠ k)))
  | j, _ => j

/-- JS delete of the key at the end of a path, descending through object
fields.  The source raises a TypeError when an intermediate key is
missing; the model leaves the tree unchanged there, and the claims are
stated for paths that exist or are disjoint from the deleted one. -/
def delPath : Json → List String → Json
  | j, [] => j
  | j, [k] => delKey j k
  | .obj fs, k :: k2 :: ks =>
    .obj (fs.map (fun kv => if kv.1 = k then (kv.1, delPath kv.2 (k2 :: ks)) else kv))
  | j, _ :: _ :: _ => j

/-- Key path of the volatile type-lookup subtree for a schema version. -/
def lookupPath (v : Nat) : List String :=
  ["metadata", "v" ++ toString v, "lookup"]

/-- The delete of json.metadata.vN.lookup performed by decodeLatestMeta
before the golden-fixture comparison. -/
def stripLookup (j : Json) (v : Nat) : Json :=
  delPath j (lookupPath v)

/-- Storage item descriptor: name, the optional modifier, an opaque
declared type reference, and the fallback byte sequence (the content of
the item's fallback Bytes codec, as returned by both toHex and the bare
toU8a). -/
structure StorageItem where
  name : String
  isOptional : Bool
  ty : Nat
  fallback : Bytes

/-- Module (pallet) descriptor: name and, when storage.isSome, the
ordered storage items. -/
structure Pallet where
  name : String
  storage : Option (List StorageItem)

/-- Latest-version projection of a metadata object, exposing the fields
the harness reads: lookup.types.toJSON and the pallet list. -/
structure Latest where
  lookupTypesJson : Json
  pallets : List Pallet

/-- Decoded metadata object, exposing the operations the harness calls:
the format version, the byte re-encoding, the structural tree, the bytes
of the calls-only projection, and the latest-version projection whose
materialization can fail. -/
structure Meta where
  version : Nat
  toHex : Bytes
  toJSON : Json
  callsOnlyHex : Bytes
  asLatest : Except String Latest

/-- Decoded codec value produced by createTypeUnsafe; toU8a is its full
(non-bare) encoding, as the source calls toU8a with no argument. -/
structure CodecInstance where
  toU8a : Bytes

/-- External codec and registry collaborators.  decode models the
Metadata constructor on raw bytes; the remaining fields model the
imported utilities the harness composes. -/
structure Registry where
  decode : Bytes → Except String Meta
  stringCamelCase : String → String
  unwrapStorageType : Nat → Bool → String
  unwrapStorageSi : Nat → Nat
  createLookupType : Nat → String
  createTypeUnsafe : String → Bytes → Bool → Except String CodecInstance
  getUniqTypes : Latest → Bool → Except String Unit

/-- Test fixture descriptor: the encoded metadata and the allow-list of
location patterns expected to fail default-value validation. -/
structure Check where
  data : Bytes
  fails : List String

/-- The sub component of a golden-fixture key. -/
inductive FixtureKind where
  | json
  | types
deriving DecidableEq

/-- Golden-fixture store, keyed by schema version, fixture name and
kind; one stored tree per key, none when the fixture file is absent. -/
def FixtureStore : Type :=
  Nat → String → FixtureKind → Option Json

/-- Stored tree at one key; none models readJson throwing on a missing
fixture file. -/
def readJson (store : FixtureStore) (version : Nat) (type : String) (sub : FixtureKind) : Option Json :=
  store version type sub

/-- writeJson overwrites exactly one key of the store. -/
def writeJson (store : FixtureStore) (j : Json) (version : Nat) (type : String) (sub : FixtureKind) : FixtureStore :=
  fun v t s => if v = version ∧ t = type ∧ s = sub then some j else store v t s

/-- Outcome of one golden-fixture comparison. -/
inductive ReconcileOutcome where
  | passed
  | fatal
  | healed (tree : Json)
deriving DecidableEq

/-- The try-catch around one golden-fixture comparison: pass when the
produced tree deep-equals the stored one; on mismatch or missing
fixture, fatal under the CI environment signal, otherwise self-heal with
the produced tree. -/
def reconcile (isCI : Bool) (produced : Json) (stored : Option Json) : ReconcileOutcome :=
  match stored with
  | some t => if produced = t then .passed else if isCI then .fatal else .healed produced
  | none => if isCI then .fatal else .healed produced

/-- Reconcile against the store at one key, writing the produced tree
back at that key on self-heal. -/
def runReconcile (store : FixtureStore) (version : Nat) (type : String) (sub : FixtureKind) (isCI : Bool) (produced : Json) : ReconcileOutcome × FixtureStore :=
  match reconcile isCI produced (readJson store version type sub) with
  | .healed t => (.healed t, writeJson store t version type sub)
  | o => (o, store)

/-- Outcome of the decodes-latest-substrate-properly check. -/
inductive LatestJsonOutcome where
  | versionMismatch (got expected : Nat)
  | compared (o : ReconcileOutcome)
deriving DecidableEq

/-- Body of the decodes-latest-substrate-properly check: strip the
lookup subtree of the decoded version from the structural tree, assert
the declared version, then run the golden-fixture protocol for the json
kind. -/
def latestJsonCheck (m : Meta) (version : Nat) (type : String) (store : FixtureStore) (isCI : Bool) : LatestJsonOutcome × FixtureStore :=
  let json := stripLookup m.toJSON m.version
  if m.version = version then
    let r := runReconcile store version type .json isCI json
    (.compared r.1, r.2)
  else
    (.versionMismatch m.version version, store)

/-- Body of the decodes-latest-types-correctly check: the same protocol
applied to asLatest.lookup.types.toJSON for the types kind; the asLatest
getter throwing fails the check directly. -/
def latestTypesCheck (m : Meta) (version : Nat) (type : String) (store : FixtureStore) (isCI : Bool) : Except String (ReconcileOutcome × FixtureStore) :=
  match m.asLatest with
  | .error e => .error e
  | .ok l => .ok (runReconcile store version type .types isCI l.lookupTypesJson)

/-- Checks registered by decodeLatestMeta: the metadata bound to the
registry, the json-kind fixture check, and the types-kind fixture check
when registered. -/
structure DecodeLatestResult where
  bound : Meta
  jsonCheck : LatestJsonOutcome × FixtureStore
  typesCheck : Option (Except String (ReconcileOutcome × FixtureStore))

/-- decodeLatestMeta: decode the fixture data, bind the result as the
registry's active metadata, register the json-kind fixture check always
and the types-kind fixture check for declared versions of 14 and up. -/
def decodeLatestMeta (reg : Registry) (type : String) (version : Nat) (check : Check) (store : FixtureStore) (isCI : Bool) : Except String DecodeLatestResult :=
  match reg.decode check.data with
  | .error e => .error e
  | .ok m =>
    .ok ⟨m, latestJsonCheck m version type store isCI,
      if 14 ≤ version then some (latestTypesCheck m version type store isCI) else none⟩

/-- Result of the converts-to-latest check: the metadata bound to the
registry, the withThrow flag getUniqTypes was called with when it ran,
and the check outcome. -/
structure ToLatestResult where
  bound : Option Meta
  uniqRan : Option Bool
  outcome : Except String Unit

/-- toLatest: decode, bind, force the asLatest projection, and run
getUniqTypes with the withThrow flag exactly when the decoded version is
below 14. -/
def toLatest (reg : Registry) (version : Nat) (check : Check) (withThrow : Bool) : ToLatestResult :=
  match reg.decode check.data with
  | .error e => ⟨none, none, .error e⟩
  | .ok m =>
    match m.asLatest with
    | .error e => ⟨some m, none, .error e⟩
    | .ok latest =>
      if m.version < 14 then
        ⟨some m, some withThrow, reg.getUniqTypes latest withThrow⟩
      else
        ⟨some m, none, .ok ()⟩

/-- JS String.includes: the pattern occurs as a contiguous substring. -/
def jsIncludes (s pat : String) : Bool :=
  decide (pat.data <:+: s.data)

/-- Location string of a storage item, the section name being already
camel-cased at the pallet level. -/
def itemLocation (reg : Registry) (sectionName : String) (item : StorageItem) : String :=
  sectionName ++ "." ++ reg.stringCamelCase item.name ++ ": " ++ reg.unwrapStorageType item.ty item.isOptional

/-- Error message of a failed fallback round-trip, reporting the byte
delta computed from the lengths of the two hex strings. -/
def fallbackMismatchMsg (hexType hexOrig : List Char) : String :=
  "Fallback does not match (" ++
    toString (((hexOrig.length : Int) - 2) / 2 - (((hexType.length : Int) - 2) / 2)) ++
    " bytes missing): " ++ String.mk hexType ++ " !== " ++ String.mk hexOrig

/-- Inner try body of one storage-item check: decode the fallback bytes
under the item's lookup type with the optionality flag and, when
withFallbackCheck is set, compare the full re-encoding of the decoded
value against the bare fallback bytes through their hex strings. -/
def fallbackAttempt (reg : Registry) (withFallbackCheck : Bool) (item : StorageItem) : Except String Unit :=
  match reg.createTypeUnsafe (reg.createLookupType (reg.unwrapStorageSi item.ty)) item.fallback item.isOptional with
  | .error e => .error e
  | .ok inst =>
    if withFallbackCheck then
      let hexType := u8aToHex inst.toU8a
      let hexOrig := u8aToHex item.fallback
      if hexType ≠ hexOrig then .error (fallbackMismatchMsg hexType hexOrig) else .ok ()
    else .ok ()

/-- Classified outcome of one storage-item check. -/
inductive ItemOutcome where
  | passed
  | warned (msg : String)
  | fatal (msg : String)
deriving DecidableEq

/-- One storage-item check body with the catch that classifies an error
as re-raised (fatal) or demoted to a console warning. -/
def checkItem (reg : Registry) (fails : List String) (withThrow withFallbackCheck : Bool) (sectionName : String) (item : StorageItem) : ItemOutcome :=
  let location := itemLocation reg sectionName item
  match fallbackAttempt reg withFallbackCheck item with
  | .ok _ => .passed
  | .error e =>
    let message := location ++ ":: " ++ e
    if withThrow && !(fails.any (fun f => jsIncludes location f)) then
      .fatal message
    else
      .warned message

/-- The outer not-toThrow assertion of one storage item: it passes
unless the classified error is re-raised. -/
def itemAssertionPasses (reg : Registry) (fails : List String) (withThrow withFallbackCheck : Bool) (sectionName : String) (item : StorageItem) : Bool :=
  match checkItem reg fails withThrow withFallbackCheck sectionName item with
  | .fatal _ => false
  | _ => true

/-- defaultValues: one classified check per storage item of every pallet
that has storage, in declaration order, keyed by location. -/
def defaultValues (reg : Registry) (check : Check) (withThrow withFallbackCheck : Bool) : Except String (List (String × ItemOutcome)) :=
  match reg.decode check.data with
  | .error e => .error e
  | .ok m =>
    match m.asLatest with
    | .error e => .error e
    | .ok latest =>
      .ok ((latest.pallets.filter (fun p => p.storage.isSome)).flatMap (fun p =>
        let sectionName := reg.stringCamelCase p.name
        (p.storage.getD []).map (fun item =>
          (itemLocation reg sectionName item,
           checkItem reg check.fails withThrow withFallbackCheck sectionName item))))

/-- Results of the two active assertions registered by serialize.  The
third historical assertion (reconstruction from the re-serialized form)
is registered with it.skip in the source and therefore not an active
check of the model. -/
structure SerializeChecks where
  hexMatches : Bool
  callsOnlyDecodes : Bool

/-- serialize: re-encode the decoded metadata and compare against the
original data, and decode the re-encoded calls-only projection. -/
def serialize (reg : Registry) (check : Check) : Except String SerializeChecks :=
  match reg.decode check.data with
  | .error e => .error e
  | .ok m =>
    .ok ⟨decide (m.toHex = check.data),
      match reg.decode m.callsOnlyHex with
      | .ok _ => true
      | .error _ => false⟩

/-! Helper lemmas about the hex encoding. -/

theorem byteToHex_length (n : Nat) : (byteToHex n).length = 2 := rfl

theorem hexBody_length (bs : Bytes) : (hexBody bs).length = 2 * bs.length := by
  induction bs with
  | nil => rfl
  | cons b bs ih =>
    simp only [hexBody, List.map_cons, List.flatten_cons, List.length_append,
      byteToHex_length, List.length_cons]
    simp only [hexBody] at ih
    omega

theorem u8aToHex_length (bs : Bytes) : (u8aToHex bs).length = 2 + 2 * bs.length := by
  simp only [u8aToHex, List.length_cons, hexBody_length]
  omega

theorem hexDigit_inj : ∀ a < 16, ∀ b < 16, hexDigit a = hexDigit b → a = b := by decide

theorem byteToHex_inj {a b : Nat} (ha : a < 256) (hb : b < 256)
    (h : byteToHex a = byteToHex b) : a = b := by
  simp only [byteToHex, List.cons.injEq, and_true] at h
  have h1 : a / 16 = b / 16 :=
    hexDigit_inj (a / 16) (by omega) (b / 16) (by omega) h.1
  have h2 : a % 16 = b % 16 :=
    hexDigit_inj (a % 16) (by omega) (b % 16) (by omega) h.2
  omega

theorem hexBody_inj : ∀ {xs ys : Bytes}, (∀ b ∈ xs, b < 256) → (∀ b ∈ ys, b < 256) →
    hexBody xs = hexBody ys → xs = ys
  | [], [], _, _, _ => rfl
  | [], y :: ys, _, _, h => by
    have := congrArg List.length h
    simp [hexBody_length] at this
  | x :: xs, [], _, _, h => by
    have := congrArg List.length h
    simp [hexBody_length] at this
  | x :: xs, y :: ys, hx, hy, h => by
    simp only [hexBody, List.map_cons, List.flatten_cons] at h
    have hlen : (byteToHex x).length = (byteToHex y).length := by
      simp [byteToHex_length]
    obtain ⟨h1, h2⟩ := List.append_inj h hlen
    have hx0 : x < 256 := hx x (by simp)
    have hy0 : y < 256 := hy y (by simp)
    have : xs = ys :=
      hexBody_inj (fun b hb => hx b (by simp [hb])) (fun b hb => hy b (by simp [hb])) h2
    rw [byteToHex_inj hx0 hy0 h1, this]

theorem u8aToHex_inj {xs ys : Bytes} (hx : ∀ b ∈ xs, b < 256) (hy : ∀ b ∈ ys, b < 256)
    (h : u8aToHex xs = u8aToHex ys) : xs = ys := by
  simp only [u8aToHex, List.cons.injEq, true_and] at h
  exact hexBody_inj hx hy h

theorem hexDelta_eq (xs ys : Bytes) :
    (((u8aToHex ys).length : Int) - 2) / 2 - (((u8aToHex xs).length : Int) - 2) / 2 =
      (ys.length : Int) - (xs.length : Int) := by
  rw [u8aToHex_length, u8aToHex_length]
  push_cast
  omega

/-! Helper lemmas about field lists, key deletion and path access. -/

theorem findKey_filter_ne (fs : List (String × Json)) (k k' : String) (h : k' ≠ k) :
    findKey (fs.filter (fun kv => decide (kv.1 ≠ k))) k' = findKey fs k' := by
  induction fs with
  | nil => rfl
  | cons kv fs ih =>
    obtain ⟨a, v⟩ := kv
    rw [List.filter_cons]
    by_cases h1 : a = k
    · rw [if_neg (by simp [h1]), ih]
      show findKey fs k' = if a = k' then some v else findKey fs k'
      rw [if_neg (by rw [h1]; exact fun hh => h hh.symm)]
    · rw [if_pos (by simp [h1])]
      show (if a = k' then some v
          else findKey (fs.filter (fun kv => decide (kv.1 ≠ k))) k') =
        if a = k' then some v else findKey fs k'
      by_cases h2 : a = k'
      · rw [if_pos h2, if_pos h2]
      · rw [if_neg h2, if_neg h2, ih]

theorem findKey_filter_self (fs : List (String × Json)) (k : String) :
    findKey (fs.filter (fun kv => decide (kv.1 ≠ k))) k = none := by
  induction fs with
  | nil => rfl
  | cons kv fs ih =>
    obtain ⟨a, v⟩ := kv
    rw [List.filter_cons]
    by_cases h1 : a = k
    · rw [if_neg (by simp [h1])]
      exact ih
    · rw [if_pos (by simp [h1])]
      show (if a = k then some v
          else findKey (fs.filter (fun kv => decide (kv.1 ≠ k))) k) = none
      rw [if_neg h1]
      exact ih

theorem findKey_map_ne (fs : List (String × Json)) (f : Json → Json) (k k' : String)
    (h : k' ≠ k) :
    findKey (fs.map (fun kv => if kv.1 = k then (kv.1, f kv.2) else kv)) k' =
      findKey fs k' := by
  induction fs with
  | nil => rfl
  | cons kv fs ih =>
    obtain ⟨a, v⟩ := kv
    show findKey ((if a = k then (a, f v) else (a, v)) ::
        fs.map (fun kv => if kv.1 = k then (kv.1, f kv.2) else kv)) k' =
      findKey ((a, v) :: fs) k'
    by_cases h1 : a = k
    · have h2 : ¬ a = k' := fun hh => h (hh.symm.trans h1)
      rw [if_pos h1]
      show (if a = k' then some (f v)
          else findKey (fs.map (fun kv => if kv.1 = k then (kv.1, f kv.2) else kv)) k') =
        if a = k' then some v else findKey fs k'
      rw [if_neg h2, if_neg h2, ih]
    · rw [if_neg h1]
      show (if a = k' then some v
          else findKey (fs.map (fun kv => if kv.1 = k then (kv.1, f kv.2) else kv)) k') =
        if a = k' then some v else findKey fs k'
      by_cases h2 : a = k'
      · rw [if_pos h2, if_pos h2]
      · rw [if_neg h2, if_neg h2, ih]

theorem findKey_map_self (fs : List (String × Json)) (f : Json → Json) (k : String) :
    findKey (fs.map (fun kv => if kv.1 = k then (kv.1, f kv.2) else kv)) k =
      (findKey fs k).map f := by
  induction fs with
  | nil => rfl
  | cons kv fs ih =>
    obtain ⟨a, v⟩ := kv
    show findKey ((if a = k then (a, f v) else (a, v)) ::
        fs.map (fun kv => if kv.1 = k then (kv.1, f kv.2) else kv)) k =
      ((if a = k then some v else findKey fs k).map f)
    by_cases h1 : a = k
    · rw [if_pos h1]
      show (if a = k then some (f v)
          else findKey (fs.map (fun kv => if kv.1 = k then (kv.1, f kv.2) else kv)) k) =
        ((if a = k then some v else findKey fs k).map f)
      rw [if_pos h1, if_pos h1]
      rfl
    · rw [if_neg h1]
      show (if a = k then some v
          else findKey (fs.map (fun kv => if kv.1 = k then (kv.1, f kv.2) else kv)) k) =
        ((if a = k then some v else findKey fs k).map f)
      rw [if_neg h1, if_neg h1, ih]

theorem getPath_cons (j : Json) (k : String) (ks : List String) :
    getPath j (k :: ks) =
      match j.get k with
      | some c => getPath c ks
      | none => none := rfl

theorem getPath_delPath_disjoint : ∀ (p : List String) (j : Json) (q : List String),
    ¬ p <+: q → ¬ q <+: p → getPath (delPath j p) q = getPath j q
  | [], _, q, h1, _ => absurd List.nil_prefix h1
  | [k], j, q, h1, h2 => by
    match q with
    | [] => exact absurd List.nil_prefix h2
    | k' :: qs =>
      have hk : k' ≠ k := by
        intro hh
        exact h1 ⟨qs, by subst hh; rfl⟩
      match j with
      | .null | .boolean _ | .num _ | .str _ | .arr _ => rfl
      | .obj fs =>
        show getPath (Json.obj (fs.filter (fun kv => decide (kv.1 ≠ k)))) (k' :: qs) =
          getPath (Json.obj fs) (k' :: qs)
        rw [getPath_cons, getPath_cons]
        show (match findKey (fs.filter (fun kv => decide (kv.1 ≠ k))) k' with
          | some c => getPath c qs
          | none => none) =
          (match findKey fs k' with
          | some c => getPath c qs
          | none => none)
        rw [findKey_filter_ne fs k k' hk]
  | k :: k2 :: ps, j, q, h1, h2 => by
    match q with
    | [] => exact absurd List.nil_prefix h2
    | k' :: qs =>
      match j with
      | .null | .boolean _ | .num _ | .str _ | .arr _ => rfl
      | .obj fs =>
        show getPath (Json.obj (fs.map
            (fun kv => if kv.1 = k then (kv.1, delPath kv.2 (k2 :: ps)) else kv)))
            (k' :: qs) = getPath (Json.obj fs) (k' :: qs)
        rw [getPath_cons, getPath_cons]
        show (match findKey (fs.map
            (fun kv => if kv.1 = k then (kv.1, delPath kv.2 (k2 :: ps)) else kv)) k' with
          | some c => getPath c qs
          | none => none) =
          (match findKey fs k' with
          | some c => getPath c qs
          | none => none)
        by_cases hk : k' = k
        · subst hk
          rw [findKey_map_self fs (fun c => delPath c (k2 :: ps)) k']
          have hp1 : ¬ (k2 :: ps) <+: qs := by
            intro hh
            exact h1 (List.cons_prefix_cons.mpr ⟨rfl, hh⟩)
          have hp2 : ¬ qs <+: (k2 :: ps) := by
            intro hh
            exact h2 (List.cons_prefix_cons.mpr ⟨rfl, hh⟩)
          match findKey fs k' with
          | none => rfl
          | some c =>
            simp only [Option.map_some]
            exact getPath_delPath_disjoint (k2 :: ps) c qs hp1 hp2
        · rw [findKey_map_ne fs (fun c => delPath c (k2 :: ps)) k k' hk]

theorem getPath_delPath3_self (j : Json) (ka kb kc : String) (fs : List (String × Json))
    (h : getPath j [ka, kb] = some (.obj fs)) :
    getPath (delPath j [ka, kb, kc]) [ka, kb, kc] = none := by
  match j with
  | .null => exact Option.noConfusion h
  | .boolean _ => exact Option.noConfusion h
  | .num _ => exact Option.noConfusion h
  | .str _ => exact Option.noConfusion h
  | .arr _ => exact Option.noConfusion h
  | .obj fs0 =>
    rw [getPath_cons] at h
    cases hg : (Json.obj fs0).get ka with
    | none => rw [hg] at h; exact Option.noConfusion h
    | some c0 =>
      rw [hg] at h
      have h1 : getPath c0 [kb] = some (.obj fs) := h
      have hg' : findKey fs0 ka = some c0 := hg
      match c0, h1 with
      | .null, h1 => exact Option.noConfusion h1
      | .boolean _, h1 => exact Option.noConfusion h1
      | .num _, h1 => exact Option.noConfusion h1
      | .str _, h1 => exact Option.noConfusion h1
      | .arr _, h1 => exact Option.noConfusion h1
      | .obj fs1, h1 =>
        rw [getPath_cons] at h1
        cases hg1 : (Json.obj fs1).get kb with
        | none => rw [hg1] at h1; exact Option.noConfusion h1
        | some c1 =>
          rw [hg1] at h1
          have h2 : c1 = .obj fs := Option.some.inj h1
          subst h2
          have hg1' : findKey fs1 kb = some (.obj fs) := hg1
          show getPath (Json.obj (fs0.map
              (fun kv => if kv.1 = ka then (kv.1, delPath kv.2 [kb, kc]) else kv)))
              [ka, kb, kc] = none
          rw [getPath_cons]
          have e0 : (Json.obj (fs0.map
              (fun kv => if kv.1 = ka then (kv.1, delPath kv.2 [kb, kc]) else kv))).get ka =
              some (delPath (Json.obj fs1) [kb, kc]) := by
            show findKey (fs0.map
              (fun kv => if kv.1 = ka then (kv.1, delPath kv.2 [kb, kc]) else kv)) ka = _
            rw [findKey_map_self fs0 (fun c => delPath c [kb, kc]) ka, hg']
            rfl
          rw [e0]
          show getPath (Json.obj (fs1.map
              (fun kv => if kv.1 = kb then (kv.1, delPath kv.2 [kc]) else kv)))
              [kb, kc] = none
          rw [getPath_cons]
          have e1 : (Json.obj (fs1.map
              (fun kv => if kv.1 = kb then (kv.1, delPath kv.2 [kc]) else kv))).get kb =
              some (delPath (Json.obj fs) [kc]) := by
            show findKey (fs1.map
              (fun kv => if kv.1 = kb then (kv.1, delPath kv.2 [kc]) else kv)) kb = _
            rw [findKey_map_self fs1 (fun c => delPath c [kc]) kb, hg1']
            rfl
          rw [e1]
          show getPath (Json.obj (fs.filter (fun kv => decide (kv.1 ≠ kc)))) [kc] = none
          rw [getPath_cons]
          have e2 : (Json.obj (fs.filter (fun kv => decide (kv.1 ≠ kc)))).get kc = none :=
            findKey_filter_self fs kc
          rw [e2]

theorem readJson_writeJson_self (store : FixtureStore) (j : Json) (version : Nat)
    (type : String) (sub : FixtureKind) :
    readJson (writeJson store j version type sub) version type sub = some j := by
  simp [readJson, writeJson]

theorem readJson_writeJson_ne (store : FixtureStore) (j : Json) (version : Nat)
    (type : String) (sub : FixtureKind) (v : Nat) (t : String) (s : FixtureKind)
    (h : ¬ (v = version ∧ t = type ∧ s = sub)) :
    readJson (writeJson store j version type sub) v t s = readJson store v t s := by
  simp [readJson, writeJson, h]

/-! Concrete exemplars used by the witness theorems. -/

/-- Exemplar latest projection. -/
def lEx : Latest := ⟨Json.null, []⟩

/-- Exemplar decoded metadata: version 9, two data bytes, a small
structural tree. -/
def mEx : Meta :=
  ⟨9, [0, 1],
    Json.obj [("magicNumber", Json.num 1635018093),
      ("metadata", Json.obj [("v9", Json.obj [("lookup", Json.arr []),
        ("modules", Json.arr [])])])],
    [7], .ok lEx⟩

/-- Exemplar storage item with a two-byte fallback. -/
def itemEx : StorageItem := ⟨"account", false, 0, [1, 2]⟩

/-- Exemplar empty fixture store. -/
def exStore : FixtureStore := fun _ _ _ => none

/-- Exemplar decoded codec value whose full encoding is one byte. -/
def instEx : CodecInstance := ⟨[0]⟩

/-- Exemplar registry whose createTypeUnsafe fails. -/
def regFailEx : Registry :=
  ⟨fun _ => .ok mEx, id, fun _ _ => "u32", id, fun n => "Lookup" ++ toString n,
    fun _ _ _ => .error "createType failure", fun _ _ => .ok ()⟩

/-- Exemplar registry whose createTypeUnsafe succeeds with instEx. -/
def regOkEx : Registry :=
  ⟨fun _ => .ok mEx, id, fun _ _ => "u32", id, fun n => "Lookup" ++ toString n,
    fun _ _ _ => .ok instEx, fun _ _ => .ok ()⟩

/-- Exemplar fixture whose data re-encodes identically under regOkEx. -/
def checkEx : Check := ⟨[0, 1], []⟩

/-- Exemplar structural tree holding a metadata.v14.lookup subtree. -/
def jEx : Json :=
  Json.obj [("magicNumber", Json.num 1635018093),
    ("metadata", Json.obj [("v14", Json.obj [("lookup", Json.arr []),
      ("pallets", Json.arr [])])])]

/-! Claim theorems. -/

/-- C1: the re-encodes-identically assertion of the Round-Trip Verifier
holds exactly when re-encoding the metadata decoded from check.data
yields bytes equal to check.data byte-for-byte. -/
theorem serialize_hexMatches_iff (reg : Registry) (check : Check) (m : Meta)
    (r : SerializeChecks) (hd : reg.decode check.data = .ok m)
    (hr : serialize reg check = .ok r) :
    r.hexMatches = true ↔ m.toHex = check.data := by
  unfold serialize at hr
  rw [hd] at hr
  cases hr
  simp

/-- Witness for C1 at a concrete registry and fixture. -/
theorem serialize_hexMatches_iff_witness :
    (SerializeChecks.mk true true).hexMatches = true ↔ mEx.toHex = checkEx.data :=
  serialize_hexMatches_iff regOkEx checkEx mEx (SerializeChecks.mk true true) rfl rfl

/-- C9: the reduced-projection-decodes assertion of the Round-Trip
Verifier passes exactly when decoding the re-encoded calls-only
projection of the decoded metadata raises no error. -/
theorem serialize_callsOnly_iff (reg : Registry) (check : Check) (m : Meta)
    (r : SerializeChecks) (hd : reg.decode check.data = .ok m)
    (hr : serialize reg check = .ok r) :
    r.callsOnlyDecodes = true ↔ ∃ m2, reg.decode m.callsOnlyHex = .ok m2 := by
  unfold serialize at hr
  rw [hd] at hr
  cases hr
  show (match reg.decode m.callsOnlyHex with
    | .ok _ => true
    | .error _ => false) = true ↔ _
  cases hm : reg.decode m.callsOnlyHex with
  | ok m2 => simp
  | error e => simp

/-- Witness for C9 at a concrete registry and fixture. -/
theorem serialize_callsOnly_iff_witness :
    (SerializeChecks.mk true true).callsOnlyDecodes = true ↔
      ∃ m2, regOkEx.decode mEx.callsOnlyHex = .ok m2 :=
  serialize_callsOnly_iff regOkEx checkEx mEx (SerializeChecks.mk true true) rfl rfl

/-- C3: a golden-fixture mismatch or absence is fatal exactly when the
CI environment signal is present; without the signal the check
self-heals, overwriting the stored fixture at the same key with the
newly produced tree and touching no other key. -/
theorem runReconcile_ci_fatal_iff (store : FixtureStore) (version : Nat)
    (type : String) (sub : FixtureKind) (isCI : Bool) (produced : Json)
    (h : readJson store version type sub ≠ some produced) :
    ((runReconcile store version type sub isCI produced).1 = .fatal ↔ isCI = true)
    ∧ (isCI = false →
        (runReconcile store version type sub isCI produced).1 = .healed produced
        ∧ readJson (runReconcile store version type sub isCI produced).2
            version type sub = some produced
        ∧ ∀ v t s, ¬ (v = version ∧ t = type ∧ s = sub) →
            readJson (runReconcile store version type sub isCI produced).2 v t s =
              readJson store v t s) := by
  cases hs : readJson store version type sub with
  | none =>
    cases isCI with
    | true =>
      refine ⟨by simp [runReconcile, reconcile, hs], fun hfalse => ?_⟩
      exact Bool.noConfusion hfalse
    | false =>
      refine ⟨by simp [runReconcile, reconcile, hs], fun _ => ⟨?_, ?_, ?_⟩⟩
      · simp [runReconcile, reconcile, hs]
      · simp [runReconcile, reconcile, hs, readJson_writeJson_self]
      · intro v t s hvts
        have hs' : store version type sub = none := hs
        simp [runReconcile, reconcile, hs', readJson, writeJson, hvts]
  | some t =>
    have hpt : ¬ produced = t := fun hh => h (by rw [hs, hh])
    cases isCI with
    | true =>
      refine ⟨by simp [runReconcile, reconcile, hs, hpt], fun hfalse => ?_⟩
      exact Bool.noConfusion hfalse
    | false =>
      refine ⟨by simp [runReconcile, reconcile, hs, hpt], fun _ => ⟨?_, ?_, ?_⟩⟩
      · simp [runReconcile, reconcile, hs, hpt]
      · simp [runReconcile, reconcile, hs, hpt, readJson_writeJson_self]
      · intro v t2 s hvts
        have hs' : store version type sub = some t := hs
        simp [runReconcile, reconcile, hs', hpt, readJson, writeJson, hvts]

/-- Witness for C3 on an empty store without the CI signal. -/
theorem runReconcile_ci_fatal_iff_witness :
    ((runReconcile exStore 9 "substrate" .json false (Json.num 2)).1 = .fatal ↔
      false = true)
    ∧ (false = false →
        (runReconcile exStore 9 "substrate" .json false (Json.num 2)).1 =
          .healed (Json.num 2)
        ∧ readJson (runReconcile exStore 9 "substrate" .json false (Json.num 2)).2
            9 "substrate" .json = some (Json.num 2)
        ∧ ∀ v t s, ¬ (v = 9 ∧ t = "substrate" ∧ s = FixtureKind.json) →
            readJson (runReconcile exStore 9 "substrate" .json false (Json.num 2)).2
              v t s = readJson exStore v t s) :=
  runReconcile_ci_fatal_iff exStore 9 "substrate" .json false (Json.num 2)
    (by simp [readJson, exStore])

/-- C5: the json-fixture check asserts that the decoded metadata's
version equals the declared version: it reports a version mismatch
exactly when they differ, and when they agree it proceeds to the
golden-fixture comparison of the stripped structural tree. -/
theorem latestJsonCheck_version_assert (m : Meta) (version : Nat) (type : String)
    (store : FixtureStore) (isCI : Bool) :
    ((latestJsonCheck m version type store isCI).1 =
        .versionMismatch m.version version ↔ m.version ≠ version)
    ∧ (m.version = version →
        (latestJsonCheck m version type store isCI).1 =
          .compared (runReconcile store version type .json isCI
            (stripLookup m.toJSON m.version)).1) := by
  by_cases hv : m.version = version
  · have hc : (latestJsonCheck m version type store isCI).1 =
        .compared (runReconcile store version type .json isCI
          (stripLookup m.toJSON m.version)).1 := by
      simp [latestJsonCheck, hv]
    refine ⟨⟨fun hcc => ?_, fun hne => absurd hv hne⟩, fun _ => hc⟩
    rw [hc] at hcc
    exact LatestJsonOutcome.noConfusion hcc
  · have hc : (latestJsonCheck m version type store isCI).1 =
        .versionMismatch m.version version := by
      simp [latestJsonCheck, hv]
    exact ⟨⟨fun _ => hv, fun _ => hc⟩, fun hh => absurd hh hv⟩

/-- Witness for C5 at the matching declared version. -/
theorem latestJsonCheck_version_assert_witness :
    (latestJsonCheck mEx 9 "substrate" exStore true).1 =
      .compared (runReconcile exStore 9 "substrate" .json true
        (stripLookup mEx.toJSON mEx.version)).1 :=
  (latestJsonCheck_version_assert mEx 9 "substrate" exStore true).2 rfl

/-- C2: an error raised while decoding a storage item's fallback, or
during its optional round-trip comparison, is re-raised as fatal exactly
when withThrow is set and no pattern of check.fails occurs as a
substring of the item's location string; in every other case it is
demoted to a warning and the item's assertion passes. -/
theorem checkItem_fatal_iff (reg : Registry) (fails : List String)
    (wt wfc : Bool) (sec : String) (item : StorageItem) (e : String)
    (h : fallbackAttempt reg wfc item = .error e) :
    ((∃ msg, checkItem reg fails wt wfc sec item = .fatal msg) ↔
      (wt = true ∧ ∀ f ∈ fails, ¬ f.data <:+: (itemLocation reg sec item).data))
    ∧ ((wt = false ∨ ∃ f ∈ fails, f.data <:+: (itemLocation reg sec item).data) →
        checkItem reg fails wt wfc sec item =
          .warned (itemLocation reg sec item ++ ":: " ++ e)
        ∧ itemAssertionPasses reg fails wt wfc sec item = true) := by
  have hany : (fails.any (fun f => jsIncludes (itemLocation reg sec item) f) = true) ↔
      ∃ f ∈ fails, f.data <:+: (itemLocation reg sec item).data := by
    rw [List.any_eq_true]
    constructor
    · rintro ⟨f, hf, hj⟩
      exact ⟨f, hf, of_decide_eq_true hj⟩
    · rintro ⟨f, hf, hj⟩
      exact ⟨f, hf, decide_eq_true hj⟩
  have hchk : checkItem reg fails wt wfc sec item =
      if wt && !(fails.any (fun f => jsIncludes (itemLocation reg sec item) f)) then
        .fatal (itemLocation reg sec item ++ ":: " ++ e)
      else
        .warned (itemLocation reg sec item ++ ":: " ++ e) := by
    simp only [checkItem, h]
  constructor
  · constructor
    · rintro ⟨msg, hm⟩
      rw [hchk] at hm
      by_cases hc : (wt && !(fails.any (fun f =>
          jsIncludes (itemLocation reg sec item) f))) = true
      · obtain ⟨hw, hna⟩ := Bool.and_eq_true_iff.mp hc
        refine ⟨hw, fun f hf hinf => ?_⟩
        have : fails.any (fun f => jsIncludes (itemLocation reg sec item) f) = true :=
          hany.mpr ⟨f, hf, hinf⟩
        rw [this] at hna
        exact Bool.noConfusion hna
      · rw [if_neg hc] at hm
        exact ItemOutcome.noConfusion hm
    · rintro ⟨hw, hall⟩
      have hna : fails.any (fun f => jsIncludes (itemLocation reg sec item) f) = false := by
        cases ha : fails.any (fun f => jsIncludes (itemLocation reg sec item) f) with
        | false => rfl
        | true =>
          obtain ⟨f, hf, hinf⟩ := hany.mp ha
          exact absurd hinf (hall f hf)
      refine ⟨itemLocation reg sec item ++ ":: " ++ e, ?_⟩
      rw [hchk, if_pos (by rw [hw, hna]; rfl)]
  · intro hor
    have hc : (wt && !(fails.any (fun f =>
        jsIncludes (itemLocation reg sec item) f))) = false := by
      cases hor with
      | inl hw => rw [hw]; rfl
      | inr hex =>
        rw [hany.mpr hex]
        exact Bool.and_false wt
    have hw : checkItem reg fails wt wfc sec item =
        .warned (itemLocation reg sec item ++ ":: " ++ e) := by
      rw [hchk, if_neg (by rw [hc]; exact Bool.false_ne_true)]
    exact ⟨hw, by simp [itemAssertionPasses, hw]⟩

/-- Witness for C2 at a registry whose decode of the fallback fails. -/
theorem checkItem_fatal_iff_witness :
    ((∃ msg, checkItem regFailEx ["xyz"] true false "system" itemEx = .fatal msg) ↔
      (true = true ∧ ∀ f ∈ ["xyz"],
        ¬ f.data <:+: (itemLocation regFailEx "system" itemEx).data))
    ∧ ((true = false ∨ ∃ f ∈ ["xyz"],
        f.data <:+: (itemLocation regFailEx "system" itemEx).data) →
        checkItem regFailEx ["xyz"] true false "system" itemEx =
          .warned (itemLocation regFailEx "system" itemEx ++ ":: " ++ "createType failure")
        ∧ itemAssertionPasses regFailEx ["xyz"] true false "system" itemEx = true) :=
  checkItem_fatal_iff regFailEx ["xyz"] true false "system" itemEx "createType failure" rfl

/-- C10: when check.fails contains the empty string, every error raised
during default-value validation is tolerated whatever the withThrow
flag, the empty string being a substring of every location. -/
theorem checkItem_empty_pattern_tolerates (reg : Registry) (fails : List String)
    (wt wfc : Bool) (sec : String) (item : StorageItem) (h : "" ∈ fails) :
    (∀ msg, checkItem reg fails wt wfc sec item ≠ .fatal msg)
    ∧ itemAssertionPasses reg fails wt wfc sec item = true := by
  have hany : fails.any (fun f => jsIncludes (itemLocation reg sec item) f) = true := by
    rw [List.any_eq_true]
    exact ⟨"", h, decide_eq_true List.nil_infix⟩
  constructor
  · intro msg
    cases hfa : fallbackAttempt reg wfc item with
    | ok u => simp [checkItem, hfa]
    | error e => simp [checkItem, hfa, hany]
  · cases hfa : fallbackAttempt reg wfc item with
    | ok u => simp [itemAssertionPasses, checkItem, hfa]
    | error e => simp [itemAssertionPasses, checkItem, hfa, hany]

/-- Witness for C10 with the empty pattern in the allow-list. -/
theorem checkItem_empty_pattern_tolerates_witness :
    (∀ msg, checkItem regFailEx [""] true false "system" itemEx ≠ .fatal msg)
    ∧ itemAssertionPasses regFailEx [""] true false "system" itemEx = true :=
  checkItem_empty_pattern_tolerates regFailEx [""] true false "system" itemEx (by simp)

/-- C4: with the fallback check enabled, a decoded fallback whose full
re-encoding differs from the original fallback bytes raises the
mismatch error, whose reported count is the byte-length delta between
the expected and actual encodings; the hex comparison agrees with
byte-for-byte equality on genuine bytes. -/
theorem fallbackAttempt_mismatch_delta (reg : Registry) (item : StorageItem)
    (inst : CodecInstance)
    (h1 : reg.createTypeUnsafe (reg.createLookupType (reg.unwrapStorageSi item.ty))
        item.fallback item.isOptional = .ok inst)
    (h2 : u8aToHex inst.toU8a ≠ u8aToHex item.fallback) :
    fallbackAttempt reg true item =
      .error (fallbackMismatchMsg (u8aToHex inst.toU8a) (u8aToHex item.fallback))
    ∧ (((u8aToHex item.fallback).length : Int) - 2) / 2 -
        (((u8aToHex inst.toU8a).length : Int) - 2) / 2 =
        (item.fallback.length : Int) - (inst.toU8a.length : Int)
    ∧ (∀ xs ys : Bytes, (∀ b ∈ xs, b < 256) → (∀ b ∈ ys, b < 256) →
        (u8aToHex xs = u8aToHex ys ↔ xs = ys)) := by
  refine ⟨?_, hexDelta_eq _ _, ?_⟩
  · simp [fallbackAttempt, h1, h2]
  · intro xs ys hx hy
    exact ⟨u8aToHex_inj hx hy, fun hh => by rw [hh]⟩

/-- Witness for C4 at a one-byte re-encoding of a two-byte fallback. -/
theorem fallbackAttempt_mismatch_delta_witness :
    fallbackAttempt regOkEx true itemEx =
      .error (fallbackMismatchMsg (u8aToHex instEx.toU8a) (u8aToHex itemEx.fallback))
    ∧ (((u8aToHex itemEx.fallback).length : Int) - 2) / 2 -
        (((u8aToHex instEx.toU8a).length : Int) - 2) / 2 =
        (itemEx.fallback.length : Int) - (instEx.toU8a.length : Int)
    ∧ (∀ xs ys : Bytes, (∀ b ∈ xs, b < 256) → (∀ b ∈ ys, b < 256) →
        (u8aToHex xs = u8aToHex ys ↔ xs = ys)) :=
  fallbackAttempt_mismatch_delta regOkEx itemEx instEx rfl (by decide)

/-- C6: before the comparison, exactly the subtree at the lookup path of
the version is removed from the produced tree: any path neither
extending nor lying on the lookup path is unchanged, and when the
parent object exists the lookup path itself resolves to nothing. -/
theorem stripLookup_frame (j : Json) (v : Nat) :
    (∀ q : List String, ¬ lookupPath v <+: q → ¬ q <+: lookupPath v →
      getPath (stripLookup j v) q = getPath j q)
    ∧ (∀ fs : List (String × Json),
        getPath j ["metadata", "v" ++ toString v] = some (.obj fs) →
        getPath (stripLookup j v) (lookupPath v) = none) := by
  constructor
  · intro q h1 h2
    exact getPath_delPath_disjoint (lookupPath v) j q h1 h2
  · intro fs h
    exact getPath_delPath3_self j "metadata" ("v" ++ toString v) "lookup" fs h

/-- Witness for C6 on a concrete v14 tree. -/
theorem stripLookup_frame_witness :
    getPath (stripLookup jEx 14) ["magicNumber"] = getPath jEx ["magicNumber"]
    ∧ getPath (stripLookup jEx 14) (lookupPath 14) = none :=
  ⟨(stripLookup_frame jEx 14).1 ["magicNumber"] (by decide) (by decide),
   (stripLookup_frame jEx 14).2 [("lookup", Json.arr []), ("pallets", Json.arr [])]
     (by decide)⟩

/-- C7: the types-kind fixture check is registered exactly for declared
versions of at least 14 and, when the latest projection materializes, it
is the same reconcile protocol applied to the type-lookup tree, read and
written at the types key of the same version and fixture name. -/
theorem decodeLatestMeta_types_iff (reg : Registry) (type : String) (version : Nat)
    (check : Check) (store : FixtureStore) (isCI : Bool) (m : Meta)
    (r : DecodeLatestResult) (hd : reg.decode check.data = .ok m)
    (hr : decodeLatestMeta reg type version check store isCI = .ok r) :
    (r.typesCheck.isSome ↔ 14 ≤ version)
    ∧ (∀ l, m.asLatest = .ok l → 14 ≤ version →
        r.typesCheck = some (.ok (runReconcile store version type .types isCI
          l.lookupTypesJson))) := by
  unfold decodeLatestMeta at hr
  rw [hd] at hr
  cases hr
  by_cases hv : 14 ≤ version
  · constructor
    · simp [hv]
    · intro l hl _
      simp [hv, latestTypesCheck, hl]
  · constructor
    · simp [hv]
    · intro l hl hge
      exact absurd hge hv

/-- Witness for C7 at declared version 14. -/
theorem decodeLatestMeta_types_iff_witness :
    ((DecodeLatestResult.mk mEx (latestJsonCheck mEx 14 "substrate" exStore true)
        (some (latestTypesCheck mEx 14 "substrate" exStore true))).typesCheck.isSome ↔
      14 ≤ 14)
    ∧ (∀ l, mEx.asLatest = .ok l → 14 ≤ 14 →
        (DecodeLatestResult.mk mEx (latestJsonCheck mEx 14 "substrate" exStore true)
          (some (latestTypesCheck mEx 14 "substrate" exStore true))).typesCheck =
          some (.ok (runReconcile exStore 14 "substrate" .types true
            l.lookupTypesJson))) :=
  decodeLatestMeta_types_iff regOkEx "substrate" 14 checkEx exStore true mEx
    (DecodeLatestResult.mk mEx (latestJsonCheck mEx 14 "substrate" exStore true)
      (some (latestTypesCheck mEx 14 "substrate" exStore true))) rfl rfl

/-- C8: toLatest decodes and binds the metadata, forces the latest
projection, and runs the uniqueness scan over it exactly when the
decoded version is below 14, passing the withThrow flag through. -/
theorem toLatest_uniq_iff (reg : Registry) (version : Nat) (check : Check)
    (wt : Bool) (m : Meta) (l : Latest) (hd : reg.decode check.data = .ok m)
    (hl : m.asLatest = .ok l) :
    (toLatest reg version check wt).bound = some m
    ∧ (toLatest reg version check wt).uniqRan =
        (if m.version < 14 then some wt else none)
    ∧ (m.version < 14 →
        (toLatest reg version check wt).outcome = reg.getUniqTypes l wt) := by
  simp only [toLatest, hd, hl]
  by_cases hv : m.version < 14
  · simp [hv]
  · simp [hv]

/-- Witness for C8 at a version 9 metadata. -/
theorem toLatest_uniq_iff_witness :
    (toLatest regOkEx 9 checkEx true).bound = some mEx
    ∧ (toLatest regOkEx 9 checkEx true).uniqRan =
        (if mEx.version < 14 then some true else none)
    ∧ (mEx.version < 14 →
        (toLatest regOkEx 9 checkEx true).outcome = regOkEx.getUniqTypes lEx true) :=
  toLatest_uniq_iff regOkEx 9 checkEx true mEx lEx rfl rfl

end MetadataTestUtil
